import Mathlib

/-!
Verification of the fastdeps dependency-analysis core against its source.

The embedding follows the Python sources:
* `src/fastdeps/resolver.py`  (ModuleResolver)
* `src/fastdeps/graph.py`     (DependencyGraph, Tarjan cycle detection)
* `src/fastdeps/parallel.py`  (process_chunk / ParallelProcessor.process_files)
* `src/fastdeps/parser.py`    (ImportExtractor.extract_imports / _read_source)

Python dicts are embedded as association lists with insertion-order
semantics (assignment to an existing key replaces in place, a new key is
appended at the end); Python sets whose iteration order matters only up to
membership are embedded as duplicate-free lists with insertion order.
Filesystem paths are embedded root-relatively: a path is a list of path
segments together with a flag saying whether `Path.relative_to(root)`
succeeds on it (the code catches `ValueError` when it does not).
-/

/-- Lookup in an association list, first match wins (Python `dict[k]` /
`k in dict`). -/
def lookupN {α β : Type} [DecidableEq α] : List (α × β) → α → Option β
  | [], _ => none
  | (k, v) :: rest, x => if k = x then some v else lookupN rest x

/-- Assignment `dict[k] = v`: replace in place if the key is present,
otherwise append at the end (insertion order). -/
def setKey {α β : Type} [DecidableEq α] (k : α) (v : β) :
    List (α × β) → List (α × β)
  | [] => [(k, v)]
  | (k', v') :: rest =>
    if k' = k then (k, v) :: rest else (k', v') :: setKey k v rest

/-- Python `set.add`: idempotent insertion keeping insertion order. -/
def insertL {β : Type} [DecidableEq β] (x : β) (l : List β) : List β :=
  if x ∈ l then l else l ++ [x]

/-- Short-circuiting fallback chain: each Python `if key in index: return
index[key]` step falls through to the next candidate on a miss. -/
def orTry {β : Type} (a : Option β) (b : Unit → Option β) : Option β :=
  match a with
  | some x => some x
  | none => b ()

/-- A filesystem path as the resolver sees it: `underRoot` is whether
`Path.relative_to(root_path)` succeeds, and `parts` are the root-relative
segments when it does (`resolver.py` only ever inspects paths through
`relative_to`, catching `ValueError` otherwise). -/
structure Pth where
  underRoot : Bool
  parts : List String
deriving DecidableEq, Repr

/-- A snapshot of the project tree walked by `ModuleResolver._build_index`:
the root directory's own name (`root_path.name`) and the root-relative
paths of all files under it, in `os.walk` order. -/
structure PyFS where
  rootName : String
  files : List (List String)
deriving DecidableEq, Repr

/-- Python `str.split(sep)` on a character sequence (always at least one
piece; `"".split('.') == ['']`, `"a.".split('.') == ['a', '']`). -/
def splitCh (sep : Char) : List Char → List (List Char)
  | [] => [[]]
  | c :: rest =>
    match splitCh sep rest with
    | [] => [[]]
    | h :: t => if c = sep then [] :: h :: t else (c :: h) :: t

/-- Python `module_name.split('.')`. -/
def pySplitDots (s : String) : List String :=
  (splitCh '.' s.toList).map fun cs => String.mk cs

/-- Python `str.endswith(suffix)`. -/
def pyEndsWith (s suffix : String) : Bool :=
  suffix.toList.isSuffixOf s.toList

/-- Stem extraction for a `.py` filename: `some stem` when the Python
`Path.suffix == '.py'` test succeeds (so the filename has a nonempty stem
in front of the `.py` suffix), mirroring `rel_path.suffix`/`rel_path.stem`
in `_path_to_module`. -/
def pyStem (f : String) : Option String :=
  if pyEndsWith f ".py" && decide (3 < f.length) then some (f.dropRight 3)
  else none

/-- Model of `ModuleResolver._path_to_module`: drop the `.py` suffix; an
`__init__.py` is named after its directory, a regular module after its
stem; join the segments with dots. -/
def path_to_module (relParts : List String) : String :=
  let parts :=
    match relParts.getLast? with
    | some fname =>
      match pyStem fname with
      | some stem =>
        if stem = "__init__" then relParts.dropLast
        else relParts.dropLast ++ [stem]
      | none => relParts
    | none => relParts
  String.intercalate "." parts

/-- The `file.endswith('.py')` guard of `_build_index` on a relative
path's final segment. -/
def isPyFile (relParts : List String) : Bool :=
  pyEndsWith (relParts.getLast?.getD "") ".py"

/-- Model of `ModuleResolver._build_index`: walk the files in order and index every
`.py` file under its dotted module name (later files overwrite earlier
collisions, as the Python dict assignment does).  The walk only yields
paths under the root, so the `ValueError` skip branch of the source is
vacuous here. -/
def buildIndex (files : List (List String)) : List (String × Pth) :=
  files.foldl
    (fun idx q =>
      if isPyFile q then setKey (path_to_module q) ⟨true, q⟩ idx else idx)
    []

/-- Directories recorded in `package_dirs` (those containing an
`__init__.py`).  The set is built by `_build_index` but never read by the
resolution functions. -/
def packageDirs (files : List (List String)) : List (List String) :=
  files.filterMap
    (fun q => if q.getLast? = some "__init__.py" then some q.dropLast else none)

/-- The state of a constructed `ModuleResolver`. -/
structure Resolver where
  rootName : String
  file_index : List (String × Pth)
  package_dirs : List (List String)
deriving Repr

/-- Model of `ModuleResolver.__init__`: build the index once from the walked tree. -/
def mkResolver (fs : PyFS) : Resolver :=
  ⟨fs.rootName, buildIndex fs.files, packageDirs fs.files⟩

/-- The `STDLIB_MODULES` class attribute, transcribed from the source. -/
def STDLIB_MODULES : List String :=
  ["abc", "argparse", "ast", "asyncio", "base64", "bisect", "builtins",
   "collections", "contextlib", "copy", "csv", "dataclasses", "datetime",
   "decimal", "dis", "enum", "functools", "gc", "glob", "hashlib", "heapq",
   "http", "importlib", "inspect", "io", "itertools", "json", "logging",
   "math", "multiprocessing", "os", "pathlib", "pickle", "platform", "queue",
   "random", "re", "shutil", "signal", "socket", "sqlite3", "string",
   "struct", "subprocess", "sys", "tempfile", "textwrap", "threading",
   "time", "timeit", "traceback", "typing", "unittest", "urllib", "uuid",
   "warnings", "weakref", "xml", "zipfile"]

/-- The root-package-name-stripping branch of `_resolve_absolute`: when the
root directory's own name equals the import's leading segment, retry with
that segment stripped, first bare then as a package `__init__`; on a miss
fall through (the Python branch returns only on a hit). -/
def stripRootTry (r : Resolver) (moduleName top_level : String) : Option Pth :=
  if r.rootName = top_level then
    let stripped :=
      if moduleName.toList.contains '.' then
        String.intercalate "." (pySplitDots moduleName).tail
      else ""
    if stripped ≠ "" then
      orTry (lookupN r.file_index stripped) fun _ =>
        lookupN r.file_index (stripped ++ ".__init__")
    else none
  else none

/-- The `from_file` heuristics of `_resolve_absolute`: try the name as a
sibling of `from_file`'s directory (bare, then as a package), and when the
file is nested two or more levels deep also try joining the grandparent
directory with the name's segments.  The whole block is skipped when
`from_file.relative_to(root)` raises. -/
def siblingTry (r : Resolver) (moduleName : String) (fromFile : Pth) :
    Option Pth :=
  if fromFile.underRoot then
    let from_parts := fromFile.parts.dropLast
    orTry
      (if from_parts ≠ [] then
        let sibling := String.intercalate "." (from_parts ++ [moduleName])
        orTry (lookupN r.file_index sibling) fun _ =>
          lookupN r.file_index (sibling ++ ".__init__")
      else none) fun _ =>
      if 1 < from_parts.length then
        let parentM :=
          String.intercalate "." (from_parts.dropLast ++ pySplitDots moduleName)
        orTry (lookupN r.file_index parentM) fun _ =>
          lookupN r.file_index (parentM ++ ".__init__")
      else none
  else none

/-- The final prefix walk of `_resolve_absolute`:
`for i in range(len(parts) - 1, 0, -1)`, trying each proper prefix of the
dotted name bare and as a package.  The argument is the next prefix length
to try; `0` corresponds to the exhausted range. -/
def parentScan (r : Resolver) (parts : List String) : Nat → Option Pth
  | 0 => none
  | i + 1 =>
    let parent := String.intercalate "." (parts.take (i + 1))
    orTry (lookupN r.file_index parent) fun _ =>
      orTry (lookupN r.file_index (parent ++ ".__init__")) fun _ =>
        parentScan r parts i

/-- Model of `ModuleResolver._resolve_absolute`. -/
def resolve_absolute (r : Resolver) (moduleName : String)
    (fromFile : Option Pth) : Option Pth :=
  if moduleName = "" then none
  else
    let top_level := ((pySplitDots moduleName).headD "")
    if top_level ∈ STDLIB_MODULES then none
    else
      orTry (stripRootTry r moduleName top_level) fun _ =>
      orTry (lookupN r.file_index moduleName) fun _ =>
      orTry (lookupN r.file_index (moduleName ++ ".__init__")) fun _ =>
      orTry
        (match fromFile with
         | some f => siblingTry r moduleName f
         | none => none) fun _ =>
      parentScan r (pySplitDots moduleName)
        ((pySplitDots moduleName).length - 1)

/-- Model of `ModuleResolver._resolve_relative`.  Both the `__init__` and the
regular-module branch of the source drop the final path segment, so the
enclosing package is the file's own directory for an initializer and the
parent directory for a regular module.  The second lookup mirrors the
source's `target_init = f"{target_module}"` literally (the f-string adds
no `.__init__` suffix). -/
def resolve_relative (r : Resolver) (moduleName : String) (fromFile : Pth)
    (level : Nat) : Option Pth :=
  if fromFile.underRoot then
    let from_parts := fromFile.parts.dropLast
    if from_parts.length + 1 < level then none
    else
      let from_parts :=
        if 1 < level then from_parts.take (from_parts.length - (level - 1))
        else from_parts
      let target_parts :=
        if moduleName ≠ "" then from_parts ++ pySplitDots moduleName
        else from_parts
      let target_module := String.intercalate "." target_parts
      orTry (lookupN r.file_index target_module) fun _ =>
        if target_module ≠ "" then lookupN r.file_index target_module
        else none
  else none

/-- Model of `ModuleResolver.resolve_import`. -/
def resolve_import (r : Resolver) (moduleName : String) (fromFile : Pth)
    (level : Nat) : Option Pth :=
  if level = 0 then resolve_absolute r moduleName (some fromFile)
  else resolve_relative r moduleName fromFile level

/-- Model of `ModuleResolver.is_external`. -/
def is_external (r : Resolver) (moduleName : String) : Bool :=
  if moduleName = "" then false
  else
    let top_level := ((pySplitDots moduleName).headD "")
    if top_level ∈ STDLIB_MODULES then false
    else if (lookupN r.file_index moduleName).isSome then false
    else if (lookupN r.file_index (moduleName ++ ".__init__")).isSome then false
    else true

/-- A node in the dependency graph (`graph.py` `Node`): the Python sets
`imports`, `imported_by`, `external_imports` are embedded as
duplicate-free insertion-ordered lists. -/
structure GNode (α : Type) where
  path : α
  imports : List α
  imported_by : List α
  external_imports : List String
deriving DecidableEq, Repr

/-- Model of `DependencyGraph`: the `nodes` dict keyed by file identity.  The
`root_path` field and the serialization helpers (`to_dict`) only feed the
rendering layer and are not modeled. -/
structure DependencyGraph (α : Type) where
  nodes : List (α × GNode α)
deriving DecidableEq, Repr

/-- A graph with no nodes (`DependencyGraph.__init__`). -/
def emptyDepGraph {α : Type} : DependencyGraph α := ⟨[]⟩

/-- Model of `self.nodes[p]` as an optional lookup. -/
def getNode {α : Type} [DecidableEq α] (g : DependencyGraph α) (p : α) :
    Option (GNode α) :=
  lookupN g.nodes p

/-- Model of `DependencyGraph.add_file`. -/
def add_file {α : Type} [DecidableEq α] (g : DependencyGraph α) (p : α) :
    DependencyGraph α :=
  if (getNode g p).isSome then g else ⟨g.nodes ++ [(p, ⟨p, [], [], []⟩)]⟩

/-- In-place mutation of the node stored under key `p` (Python mutates the
`Node` object held in the dict). -/
def updateNode {α : Type} [DecidableEq α] (g : DependencyGraph α) (p : α)
    (f : GNode α → GNode α) : DependencyGraph α :=
  ⟨g.nodes.map fun e => if e.1 = p then (e.1, f e.2) else e⟩

/-- Model of `DependencyGraph.add_dependency`: register both endpoints, then the
edge and its mirror.  The two mutations are sequential, so a self-loop
(`a = b`) updates the same node twice, as in the source. -/
def add_dependency {α : Type} [DecidableEq α] (g : DependencyGraph α)
    (a b : α) : DependencyGraph α :=
  let g1 := add_file g a
  let g2 := add_file g1 b
  let g3 := updateNode g2 a fun n => { n with imports := insertL b n.imports }
  updateNode g3 b fun n => { n with imported_by := insertL a n.imported_by }

/-- Model of `DependencyGraph.add_external`. -/
def add_external {α : Type} [DecidableEq α] (g : DependencyGraph α) (p : α)
    (m : String) : DependencyGraph α :=
  let g1 := add_file g p
  updateNode g1 p fun n => { n with external_imports := insertL m n.external_imports }

/-- The `imports` set of the node stored under `a` (empty when absent). -/
def importsOf {α : Type} [DecidableEq α] (g : DependencyGraph α) (a : α) :
    List α :=
  ((getNode g a).map GNode.imports).getD []

/-- The `imported_by` set of the node stored under `a` (empty when
absent). -/
def importedByOf {α : Type} [DecidableEq α] (g : DependencyGraph α) (a : α) :
    List α :=
  ((getNode g a).map GNode.imported_by).getD []

/-- The total number of stored `imports` edges (used only to size the fuel
of the embedded recursions). -/
def totalImports {α : Type} (g : DependencyGraph α) : Nat :=
  (g.nodes.map fun e => e.2.imports.length).sum

/-- One breadth-first probe of `_is_real_cycle`: pop the queue front; an
already-visited node is skipped; otherwise a neighbor equal to `start`
while the current node differs from `start` witnesses a cycle, and the
unvisited in-component neighbors are appended to the queue.  The fuel
bounds the number of queue pops; `bfsFuel` below always exceeds the
1 + (total enqueues) pops the search can perform, so exhaustion is
unreachable from `is_real_cycle`. -/
def bfsCheck {α : Type} [DecidableEq α] (g : DependencyGraph α)
    (component : List α) (start : α) :
    Nat → List α → List α → Bool
  | 0, _, _ => false
  | _ + 1, [], _ => false
  | fuel + 1, current :: queue, visited =>
    if current ∈ visited then bfsCheck g component start fuel queue visited
    else
      let visited' := current :: visited
      match getNode g current with
      | none => bfsCheck g component start fuel queue visited'
      | some node =>
        if node.imports.any fun n => decide (n = start) && decide (current ≠ start) then
          true
        else
          bfsCheck g component start fuel
            (queue ++ node.imports.filter fun n =>
              decide (n ∈ component) && decide (n ∉ visited'))
            visited'

/-- Fuel bound for `bfsCheck`: each pop consumes one unit, and the number
of pops is at most one (the initial queue) plus the total number of
enqueues, itself at most the total number of `imports` entries. -/
def bfsFuel {α : Type} (g : DependencyGraph α) : Nat :=
  totalImports g + g.nodes.length + 2

/-- Model of `DependencyGraph._is_real_cycle`: some member of the component can
reach, inside the component, a node different from `start` with an edge
back to `start`. -/
def is_real_cycle {α : Type} [DecidableEq α] (g : DependencyGraph α)
    (component : List α) : Bool :=
  component.any fun start => bfsCheck g component start (bfsFuel g) [start] []

/-- The mutable state of `find_cycles`: the running index counter, the
Tarjan stack (top at the head), the `indices`, `lowlinks` and `on_stack`
books, and the accumulated cycle list. -/
structure TState (α : Type) where
  index : Nat
  stack : List α
  indices : List (α × Nat)
  lowlinks : List (α × Nat)
  onStack : List α
  cycles : List (List α)
deriving Repr

/-- Model of `lowlinks[v] = x` (the key is always present when the source performs
this assignment). -/
def setLow {α : Type} [DecidableEq α] (v : α) (x : Nat) (st : TState α) :
    TState α :=
  { st with lowlinks := st.lowlinks.map fun e => if e.1 = v then (v, x) else e }

/-- Model of `lowlinks[v]` (defaulting where the source would raise `KeyError`,
which never happens on the paths the algorithm takes). -/
def getLow {α : Type} [DecidableEq α] (st : TState α) (v : α) : Nat :=
  (lookupN st.lowlinks v).getD 0

/-- Model of `indices[v]` (same remark as `getLow`). -/
def getIdx {α : Type} [DecidableEq α] (st : TState α) (v : α) : Nat :=
  (lookupN st.indices v).getD 0

/-- Pop the stack down to and including `v`, collecting the popped nodes
in pop order (the SCC member discovery order of the source). -/
def popComp {α : Type} [DecidableEq α] (v : α) : List α → List α × List α
  | [] => ([], [])
  | w :: rest =>
    if w = v then ([w], rest)
    else
      let (c, s) := popComp v rest
      (w :: c, s)

/-- The entry bookkeeping of `strongconnect`: assign the discovery index
and initial lowlink, bump the counter and push the node. -/
def scPush {α : Type} (v : α) (st0 : TState α) : TState α :=
  { index := st0.index + 1
    stack := v :: st0.stack
    indices := (v, st0.index) :: st0.indices
    lowlinks := (v, st0.index) :: st0.lowlinks
    onStack := v :: st0.onStack
    cycles := st0.cycles }

/-- The neighbor-loop body of `strongconnect`, with the recursive call
abstracted as `rec`: recurse into an unindexed neighbor and fold its
lowlink back, or fold in the index of an on-stack neighbor. -/
def scInner {α : Type} [DecidableEq α] (rec : α → TState α → TState α)
    (v : α) (st : TState α) (w : α) : TState α :=
  if (lookupN st.indices w).isNone then
    let st' := rec w st
    setLow v (min (getLow st' v) (getLow st' w)) st'
  else if w ∈ st.onStack then
    setLow v (min (getLow st v) (getIdx st w)) st
  else st

/-- The root check of `strongconnect`: when `v` is an SCC root, pop its
component off the stack and report it when it has more than one member
and passes `_is_real_cycle`. -/
def scFinish {α : Type} [DecidableEq α] (g : DependencyGraph α) (v : α)
    (st2 : TState α) : TState α :=
  if getLow st2 v = getIdx st2 v then
    let pc := popComp v st2.stack
    { st2 with
      stack := pc.2
      onStack := st2.onStack.filter fun x => decide (x ∉ pc.1)
      cycles :=
        if 1 < pc.1.length && is_real_cycle g pc.1 then
          st2.cycles ++ [pc.1]
        else st2.cycles }
  else st2

/-- Model of `strongconnect` of `find_cycles`.  Fuel bounds the recursion depth; a
recursive call happens only on a neighbor without an index, and every call
immediately indexes its argument, so the depth never exceeds the number of
distinct vertices and `scFuel` below is always sufficient.  The iteration
order over the Python `imports` set is embedded as insertion order. -/
def strongconnect {α : Type} [DecidableEq α] (g : DependencyGraph α) :
    Nat → α → TState α → TState α
  | 0, _, st => st
  | fuel + 1, v, st0 =>
    let st1 := scPush v st0
    let st2 :=
      match getNode g v with
      | none => st1
      | some node =>
        node.imports.foldl (scInner (strongconnect g fuel) v) st1
    scFinish g v st2

/-- Fuel bound for `strongconnect`'s recursion depth. -/
def scFuel {α : Type} (g : DependencyGraph α) : Nat :=
  totalImports g + g.nodes.length + 1

/-- Model of `DependencyGraph.find_cycles`: run `strongconnect` from every
still-unindexed node, in node insertion order. -/
def find_cycles {α : Type} [DecidableEq α] (g : DependencyGraph α) :
    List (List α) :=
  (g.nodes.foldl
    (fun st e =>
      if (lookupN st.indices e.1).isNone then strongconnect g (scFuel g) e.1 st
      else st)
    ⟨0, [], [], [], [], []⟩).cycles

/-- One directed `imports` edge of the graph. -/
def hasEdge {α : Type} [DecidableEq α] (g : DependencyGraph α) (a b : α) :
    Prop :=
  b ∈ importsOf g a

/-- A nonempty directed walk along `imports` edges. -/
inductive GWalk {α : Type} [DecidableEq α] (g : DependencyGraph α) :
    α → α → Prop
  | single {a b : α} : hasEdge g a b → GWalk g a b
  | cons {a b c : α} : hasEdge g a b → GWalk g b c → GWalk g a c

/-- Acyclicity of the internal `imports` edge set: no node lies on a
nonempty directed walk back to itself. -/
def Acyclic {α : Type} [DecidableEq α] (g : DependencyGraph α) : Prop :=
  ∀ x : α, ¬ GWalk g x x

/-- One graph-building call, for stating invariants over arbitrary call
sequences. -/
inductive GraphOp (α : Type) where
  | addFile (p : α)
  | addDep (a b : α)
  | addExternal (p : α) (m : String)

/-- Apply a sequence of graph-building calls to a graph. -/
def applyOps {α : Type} [DecidableEq α] (ops : List (GraphOp α))
    (g : DependencyGraph α) : DependencyGraph α :=
  ops.foldl
    (fun g op =>
      match op with
      | GraphOp.addFile p => add_file g p
      | GraphOp.addDep a b => add_dependency g a b
      | GraphOp.addExternal p m => add_external g p m)
    g

/-- The edge mirror invariant of the graph: an `imports` edge and its
`imported_by` mirror always coexist, and both endpoints of every recorded
edge are present as nodes. -/
def GraphInv {α : Type} [DecidableEq α] (g : DependencyGraph α) : Prop :=
  (∀ a b : α, b ∈ importsOf g a ↔ a ∈ importedByOf g b) ∧
  (∀ a b : α, b ∈ importsOf g a →
    (getNode g a).isSome = true ∧ (getNode g b).isSome = true)

/-- The `Import` dataclass of `parser.py`. -/
structure ImportRec where
  module : Option String
  names : List String
  level : Nat
  line : Nat
  is_from : Bool
deriving DecidableEq, Repr

/-- Model of `parallel.process_chunk` over an abstract extractor: `ext f = none`
embeds `extract_imports` raising, which the worker degrades to an empty
record list for that file only. -/
def process_chunk {α : Type} [DecidableEq α]
    (ext : α → Option (List ImportRec)) (files : List α) :
    List (α × List ImportRec) :=
  files.foldl (fun res f => setKey f ((ext f).getD []) res) []

/-- The outcome of one `ParallelProcessor.process_files` run: the merged
result dict and the number of chunks submitted to worker processes. -/
structure PFRun (α : Type) where
  result : List (α × List ImportRec)
  dispatched : Nat
deriving Repr

/-- The chunking loop `for i in range(0, len(files), chunk_size)`.  The
inner `max 1` only restates the guard the caller already applied to
`chunk_size` (so the step is positive) and makes termination structural. -/
def chunkSplit {α : Type} (cs : Nat) : (l : List α) → List (List α)
  | [] => []
  | x :: xs =>
    (x :: xs).take (max 1 cs) :: chunkSplit cs ((x :: xs).drop (max 1 cs))
termination_by l => l.length
decreasing_by
  simp only [List.length_drop, List.length_cons]
  omega

/-- Model of `dict.update` over the collected chunk results. -/
def updAll {α : Type} [DecidableEq α]
    (acc upd : List (α × List ImportRec)) : List (α × List ImportRec) :=
  upd.foldl (fun m e => setKey e.1 e.2 m) acc

/-- Model of `ParallelProcessor.process_files`: empty input returns an empty dict
with no dispatch; at most three files are processed inline by
`process_chunk` with no dispatch; otherwise the files are chunked and
every chunk is submitted to a worker running `process_chunk`.  Worker
completion order is abstracted as submission order (the merged dict is
order-independent on the claims stated below), and the per-chunk
failure/timeout degradation of the source is not exercised because each
embedded worker is the total function `process_chunk`. -/
def process_files {α : Type} [DecidableEq α]
    (ext : α → Option (List ImportRec)) (num_workers : Nat)
    (files : List α) : PFRun α :=
  if files = [] then ⟨[], 0⟩
  else if files.length ≤ 3 then ⟨process_chunk ext files, 0⟩
  else
    let chunk_size := max 1 (files.length / (num_workers * 4))
    let chunks := chunkSplit chunk_size files
    ⟨chunks.foldl (fun acc ch => updAll acc (process_chunk ext ch)) [],
      chunks.length⟩

/-- The map the spec's words describe for `extractAll`: "results identical
to sequential per-file extraction", "each file maps to its extracted
records and any per-file extraction failure maps to the empty list"
(§4.2, §8).  Stated as the lookup function of that map. -/
def sequential_extraction_spec {α : Type} [DecidableEq α]
    (ext : α → Option (List ImportRec)) (files : List α) (f : α) :
    Option (List ImportRec) :=
  if f ∈ files then some ((ext f).getD []) else none

/-- One node yielded by `ast.walk`, restricted to what
`extract_imports` inspects: an `ast.Import` carries its alias names and
line, an `ast.ImportFrom` carries `module` (possibly `None`), alias
names, `level` (possibly `None`) and line; everything else is irrelevant
to the extraction and collapses to one constructor. -/
inductive AstNode where
  | imp (names : List String) (lineno : Nat)
  | impFrom (module : Option String) (names : List String)
      (level : Option Nat) (lineno : Nat)
  | other
deriving DecidableEq, Repr

/-- Failure classes of `ast.parse`, split exactly along the boundary of
the handlers in `extract_imports`: `syntaxError` is the one class the
source's `except SyntaxError` catches; `otherError` stands for every
other exception `ast.parse` can raise — `ValueError` on source containing
null bytes under Python 3.8-3.10 (the floor declared by setup.py's
`python_requires`), `MemoryError` or `RecursionError` on pathological
input — which those handlers let escape. -/
inductive ParseErr where
  | syntaxError
  | otherError
deriving DecidableEq, Repr

/-- An exception `extract_imports` lets escape to its caller: a
non-`SyntaxError` parse failure propagating through the
`except SyntaxError` handlers, or the `IndexError` of `node.names[0]` on
an aliasless `from`-import node. -/
inductive PyExc where
  | nonSyntaxParseError
  | indexError
deriving DecidableEq, Repr

/-- The effectful primitives `extract_imports` calls on one file path,
embedded as data: whether `file_path.exists()` holds, what
`open(...).read(...)` returns for a truncated/full read (`none` embeds an
OS error raised inside `_read_source`'s `try`), the UTF-8 decoding of a
byte string (`none` embeds `UnicodeDecodeError`), the total
latin-1-with-replacement decoding, and `ast.parse`, whose failure keeps
its exception class (`ParseErr`) because the source's handlers catch only
one of them; the success value is the `ast.walk` node sequence. -/
structure PyEnv where
  fileExists : Bool
  readResult : Bool → Option (List Nat)
  decodeUtf8 : List Nat → Option String
  decodeLatin1 : List Nat → String
  parse : String → Except ParseErr (List AstNode)

/-- Model of `ImportExtractor._read_source`: any read error degrades to `""`, any
UTF-8 failure falls back to latin-1 with replacement. -/
def read_source (env : PyEnv) (truncate : Bool) : String :=
  match env.readResult truncate with
  | none => ""
  | some bs =>
    match env.decodeUtf8 bs with
    | some s => s
    | none => env.decodeLatin1 bs

/-- The record-building walk of `extract_imports`.  An `ImportFrom` whose
alias list is empty makes the source's `node.names[0]` raise `IndexError`,
embedded as `Except.error`; CPython's grammar never produces such a node. -/
def extractFromNodes : List AstNode → Except PyExc (List ImportRec)
  | [] => Except.ok []
  | AstNode.imp names line :: rest =>
    match extractFromNodes rest with
    | Except.error e => Except.error e
    | Except.ok tl =>
      Except.ok ((names.map fun nm =>
        ⟨some nm, [], 0, line, false⟩) ++ tl)
  | AstNode.impFrom mod names level line :: rest =>
    match names.head? with
    | none => Except.error PyExc.indexError
    | some first =>
      let nms := if first = "*" then ["*"] else names
      match extractFromNodes rest with
      | Except.error e => Except.error e
      | Except.ok tl =>
        Except.ok (⟨some (mod.getD ""), nms, level.getD 0, line, true⟩ :: tl)
  | AstNode.other :: rest => extractFromNodes rest

/-- Model of `ImportExtractor.extract_imports`: missing file yields `[]`;
only a `SyntaxError` from the truncated-read parse triggers the full-read
retry, and only a second `SyntaxError` degrades to `[]` — the two
`except SyntaxError` handlers of the source catch nothing else, so any
other parse failure propagates to the caller (`Except.error`), as does
the `IndexError` of the record-building walk (see `extractFromNodes`). -/
def extract_imports (env : PyEnv) : Except PyExc (List ImportRec) :=
  if !env.fileExists then Except.ok []
  else
    match env.parse (read_source env true) with
    | Except.ok tree => extractFromNodes tree
    | Except.error ParseErr.syntaxError =>
      match env.parse (read_source env false) with
      | Except.ok tree => extractFromNodes tree
      | Except.error ParseErr.syntaxError => Except.ok []
      | Except.error ParseErr.otherError =>
        Except.error PyExc.nonSyntaxParseError
    | Except.error ParseErr.otherError =>
      Except.error PyExc.nonSyntaxParseError

/-- Well-formedness of a parse result: CPython's grammar guarantees every
`from X import ...` node carries at least one alias. -/
def wfAst (t : List AstNode) : Prop :=
  ∀ n ∈ t, ∀ mod names level line,
    n = AstNode.impFrom mod names level line → names ≠ []

lemma lookupN_setKey {α β : Type} [DecidableEq α] (k : α) (v : β)
    (l : List (α × β)) (x : α) :
    lookupN (setKey k v l) x = if k = x then some v else lookupN l x := by
  induction l with
  | nil => simp [setKey, lookupN]
  | cons e rest ih =>
    obtain ⟨k', v'⟩ := e
    by_cases h : k' = k
    · subst h
      by_cases hx : k' = x <;> simp [setKey, lookupN, hx]
    · by_cases hx : k' = x
      · subst hx
        have : ¬ k = k' := fun hh => h hh.symm
        simp [setKey, lookupN, h, this]
      · simp [setKey, lookupN, h, hx, ih]

lemma mem_insertL {β : Type} [DecidableEq β] (x y : β) (l : List β) :
    x ∈ insertL y l ↔ x = y ∨ x ∈ l := by
  unfold insertL
  by_cases h : y ∈ l
  · simp only [if_pos h]
    constructor
    · exact Or.inr
    · rintro (rfl | hx)
      · exact h
      · exact hx
  · simp [if_neg h, List.mem_append, or_comm]

lemma orTry_eq_some {β : Type} {a : Option β} {b : Unit → Option β} {p : β}
    (h : orTry a b = some p) : a = some p ∨ b () = some p := by
  cases a with
  | none => exact Or.inr h
  | some x => exact Or.inl h

/-- Claim C4: a relative import of level `L` from a file nested `D`
directories below the project root (for a package initializer the
enclosing package is its own directory, for a regular module its parent
directory — both obtained by dropping the final path segment) resolves to
none whenever `L > D + 1`, i.e. whenever `L` exceeds the number of path
segments of the file. -/
theorem resolve_relative_level_exceeds_none
    (r : Resolver) (m : String) (p : List String) (level : Nat)
    (hp : p ≠ []) (hl : p.length < level) :
    resolve_relative r m ⟨true, p⟩ level = none := by
  have hlen : 0 < p.length := List.length_pos.mpr hp
  simp only [resolve_relative]
  simp only [List.length_dropLast]
  rw [if_pos trivial, if_pos (show p.length - 1 + 1 < level by omega)]

theorem resolve_relative_level_exceeds_none_witness :
    (["pkg", "mod.py"] : List String) ≠ [] ∧
    (["pkg", "mod.py"] : List String).length < 4 ∧
    resolve_relative (mkResolver ⟨"proj", [["pkg", "mod.py"]]⟩) "x"
      ⟨true, ["pkg", "mod.py"]⟩ 4 = none :=
  ⟨by decide, by decide,
    resolve_relative_level_exceeds_none _ "x" ["pkg", "mod.py"] 4
      (by decide) (by decide)⟩

/-- Claim C5: whenever the leading dotted segment of a module name is a
recognized standard-library name, absolute resolution yields none for
every resolver state (in particular even when the very name is present in
the file index) and every originating file. -/
theorem resolve_absolute_stdlib_none (r : Resolver) (m : String)
    (f : Option Pth) (h : ((pySplitDots m).headD "") ∈ STDLIB_MODULES) :
    resolve_absolute r m f = none := by
  have h' : ((pySplitDots m).head?.getD "") ∈ STDLIB_MODULES := by
    rw [← List.headD_eq_head?]; exact h
  by_cases hm : m = ""
  · simp [resolve_absolute, hm]
  · simp [resolve_absolute, hm, h']

theorem resolve_absolute_stdlib_none_witness :
    ((pySplitDots "os").headD "") ∈ STDLIB_MODULES ∧
    lookupN (mkResolver ⟨"proj", [["os.py"]]⟩).file_index "os" =
      some ⟨true, ["os.py"]⟩ ∧
    resolve_absolute (mkResolver ⟨"proj", [["os.py"]]⟩) "os"
      (some ⟨true, ["main.py"]⟩) = none :=
  ⟨by decide, by decide,
    resolve_absolute_stdlib_none _ "os" (some ⟨true, ["main.py"]⟩) (by decide)⟩

/-- Claim C6, counterexample: for the empty module name on an empty
project, none of the conditions the claim gives for returning `false`
holds — the empty name's leading segment is not a standard-library name
and the empty name is in the index neither directly nor as a package
form — yet `is_external` returns `false`, not `true` as the claim's
"true otherwise" requires. -/
theorem is_external_empty_name_counterexample :
    is_external (mkResolver ⟨"proj", []⟩) "" = false ∧
    ((pySplitDots "").headD "") ∉ STDLIB_MODULES ∧
    lookupN (mkResolver ⟨"proj", []⟩).file_index "" = none ∧
    lookupN (mkResolver ⟨"proj", []⟩).file_index ("" ++ ".__init__") = none := by
  refine ⟨by decide, by decide, by decide, by decide⟩

/-- Claim C6, amended: `is_external m` returns `false` iff `m` is empty,
or `m`'s leading dotted segment is a standard-library name, or `m` is
present in the file index directly or as a package form; it returns
`true` otherwise. -/
theorem is_external_amended (r : Resolver) (m : String) :
    is_external r m = true ↔
      m ≠ "" ∧ ((pySplitDots m).headD "") ∉ STDLIB_MODULES ∧
      lookupN r.file_index m = none ∧
      lookupN r.file_index (m ++ ".__init__") = none := by
  by_cases h1 : m = ""
  · simp [is_external, h1]
  · by_cases h2 : ((pySplitDots m).headD "") ∈ STDLIB_MODULES
    · simp [is_external, h1, h2]
    · cases hx : lookupN r.file_index m with
      | some v => simp [is_external, h1, h2, hx]
      | none =>
        cases hy : lookupN r.file_index (m ++ ".__init__") with
        | some v => simp [is_external, h1, h2, hx, hy]
        | none => simp [is_external, h1, h2, hx, hy]

lemma lookupN_process_chunk_aux {α : Type} [DecidableEq α]
    (ext : α → Option (List ImportRec)) :
    ∀ (files : List α) (acc : List (α × List ImportRec)) (f : α),
      lookupN (files.foldl (fun res g => setKey g ((ext g).getD []) res) acc) f =
        if f ∈ files then some ((ext f).getD []) else lookupN acc f := by
  intro files
  induction files with
  | nil => intro acc f; simp
  | cons x xs ih =>
    intro acc f
    simp only [List.foldl_cons]
    rw [ih]
    by_cases hf : f ∈ xs
    · simp [hf]
    · rw [lookupN_setKey]
      by_cases hx : x = f
      · subst hx
        simp [hf]
      · have hfx : ¬ f = x := fun hh => hx hh.symm
        simp [hf, hx, hfx, List.mem_cons]

/-- Claim C8: on at most three input files `process_files` dispatches no
worker chunks, inline processing gives a result map identical (as a map)
to the spec's sequential per-file extraction — each file maps to its
extracted records, an extraction failure maps to the empty list — and the
empty input yields the empty map. -/
theorem process_files_small_inline {α : Type} [DecidableEq α]
    (ext : α → Option (List ImportRec)) (nw : Nat) (files : List α)
    (h : files.length ≤ 3) :
    (process_files ext nw files).dispatched = 0 ∧
    (files = [] → (process_files ext nw files).result = []) ∧
    ∀ f, lookupN (process_files ext nw files).result f =
      sequential_extraction_spec ext files f := by
  by_cases he : files = []
  · subst he
    refine ⟨rfl, fun _ => rfl, fun f => ?_⟩
    simp [process_files, sequential_extraction_spec, lookupN]
  · have hpf : process_files ext nw files = ⟨process_chunk ext files, 0⟩ := by
      simp [process_files, he, h]
    rw [hpf]
    refine ⟨rfl, fun hc => absurd hc he, fun f => ?_⟩
    show lookupN (process_chunk ext files) f = _
    unfold process_chunk
    rw [lookupN_process_chunk_aux]
    simp [sequential_extraction_spec, lookupN]

theorem process_files_small_inline_witness :
    ([1, 2] : List Nat).length ≤ 3 ∧
    ((process_files (fun n : Nat =>
        if n = 1 then some [⟨some "os", [], 0, 1, false⟩] else none) 4
        [1, 2]).dispatched = 0 ∧
      (([1, 2] : List Nat) = [] →
        (process_files (fun n : Nat =>
          if n = 1 then some [⟨some "os", [], 0, 1, false⟩] else none) 4
          [1, 2]).result = []) ∧
      ∀ f, lookupN (process_files (fun n : Nat =>
          if n = 1 then some [⟨some "os", [], 0, 1, false⟩] else none) 4
          [1, 2]).result f =
        sequential_extraction_spec (fun n : Nat =>
          if n = 1 then some [⟨some "os", [], 0, 1, false⟩] else none)
          [1, 2] f) :=
  ⟨by decide,
    process_files_small_inline
      (fun n : Nat => if n = 1 then some [⟨some "os", [], 0, 1, false⟩] else none)
      4 [1, 2] (by decide)⟩

lemma lookupN_buildIndex_aux (key : String) (tgt : List String) :
    ∀ (files : List (List String)) (idx : List (String × Pth)),
      (∀ q ∈ files, isPyFile q = true → path_to_module q = key → q = tgt) →
      ((tgt ∈ files ∧ isPyFile tgt = true ∧ path_to_module tgt = key) ∨
        lookupN idx key = some ⟨true, tgt⟩) →
      lookupN
        (files.foldl
          (fun idx q =>
            if isPyFile q then setKey (path_to_module q) ⟨true, q⟩ idx else idx)
          idx) key = some ⟨true, tgt⟩ := by
  intro files
  induction files with
  | nil =>
    intro idx _ hbase
    rcases hbase with ⟨hmem, _⟩ | hidx
    · exact absurd hmem (List.not_mem_nil tgt)
    · exact hidx
  | cons q rest ih =>
    intro idx huniq hbase
    simp only [List.foldl_cons]
    apply ih
    · intro q' hq' hpy' hkey'
      exact huniq q' (List.mem_cons_of_mem q hq') hpy' hkey'
    · rcases hbase with ⟨hmem, hpyt, hkeyt⟩ | hidx
      · rcases List.mem_cons.mp hmem with hq | hrest
        · subst hq
          right
          rw [if_pos hpyt, lookupN_setKey, hkeyt, if_pos rfl]
        · exact Or.inl ⟨hrest, hpyt, hkeyt⟩
      · right
        by_cases hpy : isPyFile q
        · rw [if_pos hpy, lookupN_setKey]
          by_cases hk : path_to_module q = key
          · have hq := huniq q (List.mem_cons_self q rest) hpy hk
            subst hq
            rw [if_pos hk]
          · rw [if_neg hk]
            exact hidx
        · rw [if_neg hpy]
          exact hidx

lemma lookupN_buildIndex_of_unique (files : List (List String))
    (key : String) (tgt : List String)
    (hmem : tgt ∈ files) (hpy : isPyFile tgt = true)
    (hkey : path_to_module tgt = key)
    (huniq : ∀ q ∈ files, isPyFile q = true → path_to_module q = key →
      q = tgt) :
    lookupN (buildIndex files) key = some ⟨true, tgt⟩ :=
  lookupN_buildIndex_aux key tgt files [] huniq (Or.inl ⟨hmem, hpy, hkey⟩)

/-- Claim C3: when the root directory's name differs from the leading
segment `pkg` and `pkg` is no standard-library name, the regular module
file `pkg/module.py` — indexed under its own suffix-free dotted name — is
returned by absolute resolution of `pkg.module`, and the package
initializer `pkg/__init__.py` — indexed under its directory's dotted
name — is returned by absolute resolution of `pkg`.  The string-level
hypotheses pin down that `pkg` and `mod` are ordinary dot-free nonempty
segment names, expressed through the very computations the source
performs on them. -/
theorem resolve_absolute_module_and_package
    (fs : PyFS) (pkg mod : String) (fromFile : Option Pth)
    (hstd : pkg ∉ STDLIB_MODULES)
    (hroot : fs.rootName ≠ pkg)
    (hsplit1 : (pySplitDots (pkg ++ "." ++ mod)).headD "" = pkg)
    (hsplit2 : (pySplitDots pkg).headD "" = pkg)
    (hne : pkg ++ "." ++ mod ≠ "") (hnep : pkg ≠ "")
    (hkey1 : path_to_module [pkg, mod ++ ".py"] = pkg ++ "." ++ mod)
    (hkey2 : path_to_module [pkg, "__init__.py"] = pkg)
    (hpy1 : isPyFile [pkg, mod ++ ".py"] = true)
    (hmem1 : [pkg, mod ++ ".py"] ∈ fs.files)
    (hmem2 : [pkg, "__init__.py"] ∈ fs.files)
    (huniq1 : ∀ q ∈ fs.files, isPyFile q = true →
      path_to_module q = pkg ++ "." ++ mod → q = [pkg, mod ++ ".py"])
    (huniq2 : ∀ q ∈ fs.files, isPyFile q = true →
      path_to_module q = pkg → q = [pkg, "__init__.py"]) :
    resolve_absolute (mkResolver fs) (pkg ++ "." ++ mod) fromFile =
      some ⟨true, [pkg, mod ++ ".py"]⟩ ∧
    resolve_absolute (mkResolver fs) pkg fromFile =
      some ⟨true, [pkg, "__init__.py"]⟩ := by
  have hpy2 : isPyFile [pkg, "__init__.py"] = true := by
    show pyEndsWith ((List.getLast? [pkg, "__init__.py"]).getD "") ".py" = true
    have : List.getLast? [pkg, "__init__.py"] = some "__init__.py" := rfl
    rw [this]
    decide
  have hidx1 : lookupN (mkResolver fs).file_index (pkg ++ "." ++ mod) =
      some ⟨true, [pkg, mod ++ ".py"]⟩ :=
    lookupN_buildIndex_of_unique fs.files _ _ hmem1 hpy1 hkey1 huniq1
  have hidx2 : lookupN (mkResolver fs).file_index pkg =
      some ⟨true, [pkg, "__init__.py"]⟩ :=
    lookupN_buildIndex_of_unique fs.files _ _ hmem2 hpy2 hkey2 huniq2
  constructor
  · simp only [resolve_absolute, if_neg hne]
    rw [hsplit1, if_neg hstd]
    have hstrip : stripRootTry (mkResolver fs) (pkg ++ "." ++ mod) pkg = none := by
      unfold stripRootTry
      exact if_neg hroot
    rw [hstrip, hidx1]
    rfl
  · simp only [resolve_absolute, if_neg hnep]
    rw [hsplit2, if_neg hstd]
    have hstrip : stripRootTry (mkResolver fs) pkg pkg = none := by
      unfold stripRootTry
      exact if_neg hroot
    rw [hstrip, hidx2]
    rfl

theorem resolve_absolute_module_and_package_witness :
    ("pkg" : String) ∉ STDLIB_MODULES ∧
    ("proj" : String) ≠ "pkg" ∧
    (resolve_absolute
        (mkResolver ⟨"proj", [["pkg", "__init__.py"], ["pkg", "module.py"]]⟩)
        ("pkg" ++ "." ++ "module") none = some ⟨true, ["pkg", "module" ++ ".py"]⟩ ∧
      resolve_absolute
        (mkResolver ⟨"proj", [["pkg", "__init__.py"], ["pkg", "module.py"]]⟩)
        "pkg" none = some ⟨true, ["pkg", "__init__.py"]⟩) :=
  ⟨by decide, by decide,
    resolve_absolute_module_and_package
      ⟨"proj", [["pkg", "__init__.py"], ["pkg", "module.py"]]⟩ "pkg" "module"
      none (by decide) (by decide) (by decide) (by decide) (by decide)
      (by decide) (by decide) (by decide) (by decide) (by decide) (by decide)
      (by decide) (by decide)⟩

lemma if_none_eq_some {β : Type} {c : Prop} [Decidable c] {X : Option β}
    {p : β} (h : (if c then X else none) = some p) : X = some p := by
  by_cases hc : c
  · rwa [if_pos hc] at h
  · rw [if_neg hc] at h
    exact Option.noConfusion h

lemma if_none_eq_some' {β : Type} {c : Prop} [Decidable c] {X : Option β}
    {p : β} (h : (if c then none else X) = some p) : X = some p := by
  by_cases hc : c
  · rw [if_pos hc] at h
    exact Option.noConfusion h
  · rwa [if_neg hc] at h

lemma stripRootTry_indexed {r : Resolver} {m t : String} {p : Pth}
    (h : stripRootTry r m t = some p) :
    ∃ k, lookupN r.file_index k = some p := by
  unfold stripRootTry at h
  replace h := if_none_eq_some h
  try simp only [] at h
  replace h := if_none_eq_some h
  rcases orTry_eq_some h with h1 | h1
  · exact ⟨_, h1⟩
  · exact ⟨_, h1⟩

lemma siblingTry_indexed {r : Resolver} {m : String} {f : Pth} {p : Pth}
    (h : siblingTry r m f = some p) :
    ∃ k, lookupN r.file_index k = some p := by
  unfold siblingTry at h
  replace h := if_none_eq_some h
  try simp only [] at h
  rcases orTry_eq_some h with h1 | h1
  · replace h1 := if_none_eq_some h1
    try simp only [] at h1
    rcases orTry_eq_some h1 with h2 | h2
    · exact ⟨_, h2⟩
    · exact ⟨_, h2⟩
  · try simp only [] at h1
    replace h1 := if_none_eq_some h1
    try simp only [] at h1
    rcases orTry_eq_some h1 with h2 | h2
    · exact ⟨_, h2⟩
    · exact ⟨_, h2⟩

lemma parentScan_indexed {r : Resolver} {parts : List String} {p : Pth} :
    ∀ {i : Nat}, parentScan r parts i = some p →
      ∃ k, lookupN r.file_index k = some p := by
  intro i
  induction i with
  | zero => intro h; exact absurd h (by simp [parentScan])
  | succ n ih =>
    intro h
    unfold parentScan at h
    rcases orTry_eq_some h with h1 | h1
    · exact ⟨_, h1⟩
    · try simp only [] at h1
      rcases orTry_eq_some h1 with h2 | h2
      · exact ⟨_, h2⟩
      · exact ih h2

lemma resolve_absolute_indexed {r : Resolver} {m : String}
    {f : Option Pth} {p : Pth} (h : resolve_absolute r m f = some p) :
    ∃ k, lookupN r.file_index k = some p := by
  unfold resolve_absolute at h
  replace h := if_none_eq_some' h
  try simp only [] at h
  replace h := if_none_eq_some' h
  rcases orTry_eq_some h with h1 | h1
  · exact stripRootTry_indexed h1
  · try simp only [] at h1
    rcases orTry_eq_some h1 with h2 | h2
    · exact ⟨_, h2⟩
    · try simp only [] at h2
      rcases orTry_eq_some h2 with h3 | h3
      · exact ⟨_, h3⟩
      · try simp only [] at h3
        rcases orTry_eq_some h3 with h4 | h4
        · cases f with
          | some ff => exact siblingTry_indexed h4
          | none => exact Option.noConfusion h4
        · exact parentScan_indexed h4

lemma resolve_relative_indexed {r : Resolver} {m : String} {f : Pth}
    {level : Nat} {p : Pth} (h : resolve_relative r m f level = some p) :
    ∃ k, lookupN r.file_index k = some p := by
  unfold resolve_relative at h
  replace h := if_none_eq_some h
  try simp only [] at h
  replace h := if_none_eq_some' h
  rcases orTry_eq_some h with h1 | h1
  · exact ⟨_, h1⟩
  · try simp only [] at h1
    replace h1 := if_none_eq_some h1
    exact ⟨_, h1⟩

lemma lookupN_buildIndex_values :
    ∀ (files : List (List String)) (idx : List (String × Pth)) (k : String)
      (p : Pth),
      lookupN
        (files.foldl
          (fun idx q =>
            if isPyFile q then setKey (path_to_module q) ⟨true, q⟩ idx else idx)
          idx) k = some p →
      lookupN idx k = some p ∨ ∃ q ∈ files, p = ⟨true, q⟩ := by
  intro files
  induction files with
  | nil => intro idx k p h; exact Or.inl h
  | cons q rest ih =>
    intro idx k p h
    simp only [List.foldl_cons] at h
    rcases ih _ k p h with h1 | ⟨q', hq', hp⟩
    · by_cases hpy : isPyFile q
      · rw [if_pos hpy, lookupN_setKey] at h1
        by_cases hk : path_to_module q = k
        · rw [if_pos hk] at h1
          exact Or.inr ⟨q, List.mem_cons_self q rest, (Option.some_inj.mp h1).symm⟩
        · rw [if_neg hk] at h1
          exact Or.inl h1
      · rw [if_neg hpy] at h1
        exact Or.inl h1
    · exact Or.inr ⟨q', List.mem_cons_of_mem q hq', hp⟩

/-- Claim C10: whenever `resolve_import` returns a path, that path is a
value of the file index built once at construction — a source file
discovered under the project root during the initial walk. -/
theorem resolve_import_result_indexed (fs : PyFS) (m : String) (f : Pth)
    (level : Nat) (p : Pth)
    (h : resolve_import (mkResolver fs) m f level = some p) :
    (∃ k, lookupN (mkResolver fs).file_index k = some p) ∧
    p.underRoot = true ∧ p.parts ∈ fs.files := by
  have hidx : ∃ k, lookupN (mkResolver fs).file_index k = some p := by
    unfold resolve_import at h
    split at h
    · exact resolve_absolute_indexed h
    · exact resolve_relative_indexed h
  refine ⟨hidx, ?_⟩
  obtain ⟨k, hk⟩ := hidx
  have := lookupN_buildIndex_values fs.files [] k p hk
  rcases this with h1 | ⟨q, hq, hp⟩
  · exact absurd h1 (by simp [lookupN])
  · subst hp
    exact ⟨rfl, hq⟩

theorem resolve_import_result_indexed_witness :
    resolve_import (mkResolver ⟨"proj", [["main.py"]]⟩) "main"
      ⟨true, ["other.py"]⟩ 0 = some ⟨true, ["main.py"]⟩ ∧
    ((∃ k, lookupN (mkResolver ⟨"proj", [["main.py"]]⟩).file_index k =
        some ⟨true, ["main.py"]⟩) ∧
      (⟨true, ["main.py"]⟩ : Pth).underRoot = true ∧
      (⟨true, ["main.py"]⟩ : Pth).parts ∈
        (⟨"proj", [["main.py"]]⟩ : PyFS).files) :=
  ⟨by decide,
    resolve_import_result_indexed ⟨"proj", [["main.py"]]⟩ "main"
      ⟨true, ["other.py"]⟩ 0 ⟨true, ["main.py"]⟩ (by decide)⟩

lemma lookupN_append {α β : Type} [DecidableEq α] (l1 l2 : List (α × β))
    (x : α) :
    lookupN (l1 ++ l2) x =
      match lookupN l1 x with
      | some v => some v
      | none => lookupN l2 x := by
  induction l1 with
  | nil => simp [lookupN]
  | cons e rest ih =>
    obtain ⟨k, v⟩ := e
    by_cases h : k = x <;> simp [lookupN, h, ih]

@[simp] lemma lookupN_nil {α β : Type} [DecidableEq α] (x : α) :
    lookupN ([] : List (α × β)) x = none := rfl

@[simp] lemma lookupN_cons {α β : Type} [DecidableEq α] (k : α) (v : β)
    (rest : List (α × β)) (x : α) :
    lookupN ((k, v) :: rest) x = if k = x then some v else lookupN rest x :=
  rfl

lemma lookupN_mapUpdate {α β : Type} [DecidableEq α] (l : List (α × β))
    (p : α) (f : β → β) (q : α) :
    lookupN (l.map fun e => if e.1 = p then (e.1, f e.2) else e) q =
      if q = p then (lookupN l p).map f else lookupN l q := by
  induction l with
  | nil => by_cases h : q = p <;> simp [h]
  | cons e rest ih =>
    obtain ⟨k, v⟩ := e
    simp only [List.map_cons]
    by_cases hkp : k = p
    · subst hkp
      by_cases hqk : q = k
      · subst hqk
        simp [ih]
      · have hkq : ¬ k = q := fun hh => hqk hh.symm
        simp [ih, hqk, hkq]
    · by_cases hqp : q = p
      · subst hqp
        have hkq : ¬ k = q := hkp
        simp [ih, hkp, hkq]
      · by_cases hkq : k = q
        · subst hkq
          simp [ih, hkp, hqp]
        · simp [ih, hkp, hqp, hkq]

lemma getNode_updateNode {α : Type} [DecidableEq α] (g : DependencyGraph α)
    (p : α) (f : GNode α → GNode α) (q : α) :
    getNode (updateNode g p f) q =
      if q = p then (getNode g p).map f else getNode g q := by
  unfold getNode updateNode
  exact lookupN_mapUpdate g.nodes p f q

lemma getNode_add_file_self {α : Type} [DecidableEq α]
    (g : DependencyGraph α) (p : α) :
    getNode (add_file g p) p =
      some ((getNode g p).getD ⟨p, [], [], []⟩) := by
  unfold add_file
  cases hx : getNode g p with
  | some n => simp [hx]
  | none =>
    rw [if_neg (by simp [hx])]
    show lookupN (g.nodes ++ [(p, ⟨p, [], [], []⟩)]) p =
      some (Option.getD none ⟨p, [], [], []⟩)
    rw [lookupN_append]
    have hx' : lookupN g.nodes p = none := hx
    rw [hx']
    simp

lemma getNode_add_file_ne {α : Type} [DecidableEq α]
    (g : DependencyGraph α) (p q : α) (h : q ≠ p) :
    getNode (add_file g p) q = getNode g q := by
  unfold add_file
  cases hx : getNode g p with
  | some n => simp [hx]
  | none =>
    rw [if_neg (by simp [hx])]
    show lookupN (g.nodes ++ [(p, ⟨p, [], [], []⟩)]) q = getNode g q
    rw [lookupN_append]
    cases hq : lookupN g.nodes q with
    | some v =>
      show some v = lookupN g.nodes q
      exact hq.symm
    | none =>
      show lookupN [(p, ⟨p, [], [], []⟩)] q = lookupN g.nodes q
      rw [hq]
      have hpq : ¬ p = q := fun hh => h hh.symm
      simp [hpq]

lemma importsOf_add_file {α : Type} [DecidableEq α]
    (g : DependencyGraph α) (p q : α) :
    importsOf (add_file g p) q = importsOf g q := by
  by_cases h : q = p
  · subst h
    unfold importsOf
    rw [getNode_add_file_self]
    cases hx : getNode g q with
    | some n => simp [hx]
    | none => simp [hx]
  · unfold importsOf
    rw [getNode_add_file_ne g p q h]

lemma importedByOf_add_file {α : Type} [DecidableEq α]
    (g : DependencyGraph α) (p q : α) :
    importedByOf (add_file g p) q = importedByOf g q := by
  by_cases h : q = p
  · subst h
    unfold importedByOf
    rw [getNode_add_file_self]
    cases hx : getNode g q with
    | some n => simp [hx]
    | none => simp [hx]
  · unfold importedByOf
    rw [getNode_add_file_ne g p q h]

lemma getNode_isSome_add_file {α : Type} [DecidableEq α]
    (g : DependencyGraph α) (p q : α) :
    (getNode (add_file g p) q).isSome = true ↔
      q = p ∨ (getNode g q).isSome = true := by
  by_cases h : q = p
  · subst h
    rw [getNode_add_file_self]
    simp
  · rw [getNode_add_file_ne g p q h]
    simp [h]

lemma getNode_isSome_updateNode {α : Type} [DecidableEq α]
    (g : DependencyGraph α) (p : α) (f : GNode α → GNode α) (q : α) :
    (getNode (updateNode g p f) q).isSome = (getNode g q).isSome := by
  rw [getNode_updateNode]
  by_cases h : q = p
  · subst h
    cases hx : getNode g q <;> simp [hx]
  · simp [h]

lemma importsOf_updateNode_imported_by {α : Type} [DecidableEq α]
    (g : DependencyGraph α) (p : α) (lf : GNode α → List α) (q : α) :
    importsOf (updateNode g p fun n => { n with imported_by := lf n }) q =
      importsOf g q := by
  unfold importsOf
  rw [getNode_updateNode]
  by_cases hq : q = p
  · subst hq
    cases hx : getNode g q <;> simp [hx]
  · simp [hq]

lemma importsOf_updateNode_external {α : Type} [DecidableEq α]
    (g : DependencyGraph α) (p : α) (lf : GNode α → List String) (q : α) :
    importsOf (updateNode g p fun n => { n with external_imports := lf n }) q =
      importsOf g q := by
  unfold importsOf
  rw [getNode_updateNode]
  by_cases hq : q = p
  · subst hq
    cases hx : getNode g q <;> simp [hx]
  · simp [hq]

lemma importedByOf_updateNode_imports {α : Type} [DecidableEq α]
    (g : DependencyGraph α) (p : α) (lf : GNode α → List α) (q : α) :
    importedByOf (updateNode g p fun n => { n with imports := lf n }) q =
      importedByOf g q := by
  unfold importedByOf
  rw [getNode_updateNode]
  by_cases hq : q = p
  · subst hq
    cases hx : getNode g q <;> simp [hx]
  · simp [hq]

lemma importedByOf_updateNode_external {α : Type} [DecidableEq α]
    (g : DependencyGraph α) (p : α) (lf : GNode α → List String) (q : α) :
    importedByOf (updateNode g p fun n => { n with external_imports := lf n }) q =
      importedByOf g q := by
  unfold importedByOf
  rw [getNode_updateNode]
  by_cases hq : q = p
  · subst hq
    cases hx : getNode g q <;> simp [hx]
  · simp [hq]

lemma importsOf_updateNode_imports {α : Type} [DecidableEq α]
    {g : DependencyGraph α} {p : α} {n : GNode α} (lf : GNode α → List α)
    (q : α) (hn : getNode g p = some n) :
    importsOf (updateNode g p fun m => { m with imports := lf m }) q =
      if q = p then lf n else importsOf g q := by
  unfold importsOf
  rw [getNode_updateNode]
  by_cases hq : q = p
  · subst hq
    rw [if_pos rfl, if_pos rfl, hn]
    rfl
  · simp [hq]

lemma importedByOf_updateNode_imported_by {α : Type} [DecidableEq α]
    {g : DependencyGraph α} {p : α} {n : GNode α} (lf : GNode α → List α)
    (q : α) (hn : getNode g p = some n) :
    importedByOf (updateNode g p fun m => { m with imported_by := lf m }) q =
      if q = p then lf n else importedByOf g q := by
  unfold importedByOf
  rw [getNode_updateNode]
  by_cases hq : q = p
  · subst hq
    rw [if_pos rfl, if_pos rfl, hn]
    rfl
  · simp [hq]

lemma getNode_add_file_add_file_self {α : Type} [DecidableEq α]
    (g : DependencyGraph α) (a b : α) :
    getNode (add_file (add_file g a) b) a =
      some ((getNode g a).getD ⟨a, [], [], []⟩) := by
  by_cases hab : a = b
  · subst hab
    rw [getNode_add_file_self, getNode_add_file_self]
    cases hx : getNode g a <;> simp [hx]
  · rw [getNode_add_file_ne _ _ _ hab, getNode_add_file_self]

lemma importsOf_add_dependency {α : Type} [DecidableEq α]
    (g : DependencyGraph α) (a b q : α) :
    importsOf (add_dependency g a b) q =
      if q = a then insertL b (importsOf g a) else importsOf g q := by
  unfold add_dependency
  rw [importsOf_updateNode_imported_by]
  rw [importsOf_updateNode_imports _ q (getNode_add_file_add_file_self g a b)]
  by_cases hq : q = a
  · subst hq
    rw [if_pos rfl, if_pos rfl]
    congr 1
    cases hx : getNode g q <;> simp [importsOf, hx]
  · rw [if_neg hq, if_neg hq, importsOf_add_file, importsOf_add_file]

lemma importedByOf_add_dependency {α : Type} [DecidableEq α]
    (g : DependencyGraph α) (a b q : α) :
    importedByOf (add_dependency g a b) q =
      if q = b then insertL a (importedByOf g b) else importedByOf g q := by
  unfold add_dependency
  by_cases hba : b = a
  · subst hba
    have hg3 : getNode
        (updateNode (add_file (add_file g b) b) b
          fun n => { n with imports := insertL b n.imports }) b =
        some { (getNode g b).getD ⟨b, [], [], []⟩ with
          imports := insertL b ((getNode g b).getD ⟨b, [], [], []⟩).imports } := by
      rw [getNode_updateNode, if_pos rfl, getNode_add_file_add_file_self g b b]
      rfl
    rw [importedByOf_updateNode_imported_by _ q hg3]
    by_cases hq : q = b
    · subst hq
      rw [if_pos rfl, if_pos rfl]
      congr 1
      show ((getNode g q).getD ⟨q, [], [], []⟩).imported_by = importedByOf g q
      cases hx : getNode g q <;> simp [importedByOf, hx]
    · rw [if_neg hq, if_neg hq, importedByOf_updateNode_imports,
        importedByOf_add_file, importedByOf_add_file]
  · have hg3 : getNode
        (updateNode (add_file (add_file g a) b) a
          fun n => { n with imports := insertL b n.imports }) b =
        some ((getNode (add_file g a) b).getD ⟨b, [], [], []⟩) := by
      rw [getNode_updateNode, if_neg hba, getNode_add_file_self]
    rw [importedByOf_updateNode_imported_by _ q hg3]
    by_cases hq : q = b
    · subst hq
      rw [if_pos rfl, if_pos rfl]
      congr 1
      show ((getNode (add_file g a) q).getD ⟨q, [], [], []⟩).imported_by =
        importedByOf g q
      rw [getNode_add_file_ne g a q hba]
      cases hx : getNode g q <;> simp [importedByOf, hx]
    · rw [if_neg hq, if_neg hq, importedByOf_updateNode_imports,
        importedByOf_add_file, importedByOf_add_file]

lemma getNode_isSome_add_dependency {α : Type} [DecidableEq α]
    (g : DependencyGraph α) (a b q : α) :
    (getNode (add_dependency g a b) q).isSome = true ↔
      q = a ∨ q = b ∨ (getNode g q).isSome = true := by
  unfold add_dependency
  rw [getNode_isSome_updateNode, getNode_isSome_updateNode,
    getNode_isSome_add_file, getNode_isSome_add_file]
  tauto

lemma importsOf_add_external {α : Type} [DecidableEq α]
    (g : DependencyGraph α) (p : α) (m : String) (q : α) :
    importsOf (add_external g p m) q = importsOf g q := by
  unfold add_external
  rw [importsOf_updateNode_external, importsOf_add_file]

lemma importedByOf_add_external {α : Type} [DecidableEq α]
    (g : DependencyGraph α) (p : α) (m : String) (q : α) :
    importedByOf (add_external g p m) q = importedByOf g q := by
  unfold add_external
  rw [importedByOf_updateNode_external, importedByOf_add_file]

lemma getNode_isSome_add_external {α : Type} [DecidableEq α]
    (g : DependencyGraph α) (p : α) (m : String) (q : α) :
    (getNode (add_external g p m) q).isSome = true ↔
      q = p ∨ (getNode g q).isSome = true := by
  unfold add_external
  rw [getNode_isSome_updateNode, getNode_isSome_add_file]

lemma graphInv_add_file {α : Type} [DecidableEq α]
    {g : DependencyGraph α} (h : GraphInv g) (p : α) :
    GraphInv (add_file g p) := by
  obtain ⟨h1, h2⟩ := h
  constructor
  · intro a b
    rw [importsOf_add_file, importedByOf_add_file]
    exact h1 a b
  · intro a b hm
    rw [importsOf_add_file] at hm
    obtain ⟨ha, hb⟩ := h2 a b hm
    rw [getNode_isSome_add_file, getNode_isSome_add_file]
    exact ⟨Or.inr ha, Or.inr hb⟩

lemma graphInv_add_dependency {α : Type} [DecidableEq α]
    {g : DependencyGraph α} (h : GraphInv g) (x y : α) :
    GraphInv (add_dependency g x y) := by
  obtain ⟨h1, h2⟩ := h
  constructor
  · intro a b
    rw [importsOf_add_dependency, importedByOf_add_dependency]
    by_cases hax : a = x
    · subst hax
      by_cases hby : b = y
      · subst hby
        rw [if_pos rfl, if_pos rfl]
        simp [mem_insertL]
      · rw [if_pos rfl, if_neg hby]
        rw [mem_insertL]
        constructor
        · rintro (rfl | hm)
          · exact absurd rfl hby
          · exact (h1 a b).mp hm
        · intro hm
          exact Or.inr ((h1 a b).mpr hm)
    · by_cases hby : b = y
      · subst hby
        rw [if_neg hax, if_pos rfl, mem_insertL]
        constructor
        · intro hm
          exact Or.inr ((h1 a b).mp hm)
        · rintro (rfl | hm)
          · exact absurd rfl hax
          · exact (h1 a b).mpr hm
      · rw [if_neg hax, if_neg hby]
        exact h1 a b
  · intro a b hm
    rw [getNode_isSome_add_dependency, getNode_isSome_add_dependency]
    rw [importsOf_add_dependency] at hm
    by_cases hax : a = x
    · subst hax
      rw [if_pos rfl, mem_insertL] at hm
      rcases hm with rfl | hm
      · exact ⟨Or.inl rfl, Or.inr (Or.inl rfl)⟩
      · obtain ⟨_, hb⟩ := h2 a b hm
        exact ⟨Or.inl rfl, Or.inr (Or.inr hb)⟩
    · rw [if_neg hax] at hm
      obtain ⟨ha, hb⟩ := h2 a b hm
      exact ⟨Or.inr (Or.inr ha), Or.inr (Or.inr hb)⟩

lemma graphInv_add_external {α : Type} [DecidableEq α]
    {g : DependencyGraph α} (h : GraphInv g) (p : α) (m : String) :
    GraphInv (add_external g p m) := by
  obtain ⟨h1, h2⟩ := h
  constructor
  · intro a b
    rw [importsOf_add_external, importedByOf_add_external]
    exact h1 a b
  · intro a b hm
    rw [importsOf_add_external] at hm
    obtain ⟨ha, hb⟩ := h2 a b hm
    rw [getNode_isSome_add_external, getNode_isSome_add_external]
    exact ⟨Or.inr ha, Or.inr hb⟩

lemma graphInv_empty {α : Type} [DecidableEq α] :
    GraphInv (emptyDepGraph (α := α)) := by
  constructor
  · intro a b
    simp [importsOf, importedByOf, getNode, emptyDepGraph]
  · intro a b hm
    simp [importsOf, getNode, emptyDepGraph] at hm

lemma graphInv_applyOps {α : Type} [DecidableEq α] (ops : List (GraphOp α)) :
    ∀ {g : DependencyGraph α}, GraphInv g → GraphInv (applyOps ops g) := by
  induction ops with
  | nil => intro g h; exact h
  | cons op rest ih =>
    intro g h
    show GraphInv (applyOps rest _)
    apply ih
    cases op with
    | addFile p => exact graphInv_add_file h p
    | addDep a b => exact graphInv_add_dependency h a b
    | addExternal p m => exact graphInv_add_external h p m

/-- Claim C7: after any finite sequence of `add_file`, `add_dependency`
and `add_external` calls on an initially empty graph, the edge mirror
invariant holds — `b` is in `a`'s `imports` iff `a` is in `b`'s
`imported_by` — and both endpoints of every recorded edge are present as
nodes. -/
theorem graph_mirror_invariant {α : Type} [DecidableEq α]
    (ops : List (GraphOp α)) :
    (∀ a b : α, b ∈ importsOf (applyOps ops emptyDepGraph) a ↔
      a ∈ importedByOf (applyOps ops emptyDepGraph) b) ∧
    (∀ a b : α, b ∈ importsOf (applyOps ops emptyDepGraph) a →
      (getNode (applyOps ops emptyDepGraph) a).isSome = true ∧
      (getNode (applyOps ops emptyDepGraph) b).isSome = true) :=
  graphInv_applyOps ops graphInv_empty

theorem graph_mirror_invariant_witness :
    ("b.py" ∈ importsOf
        (applyOps [GraphOp.addDep "a.py" "b.py"] emptyDepGraph) "a.py" ↔
      "a.py" ∈ importedByOf
        (applyOps [GraphOp.addDep "a.py" "b.py"] emptyDepGraph) "b.py") ∧
    ((getNode (applyOps [GraphOp.addDep "a.py" "b.py"] emptyDepGraph)
        "a.py").isSome = true ∧
      (getNode (applyOps [GraphOp.addDep "a.py" "b.py"] emptyDepGraph)
        "b.py").isSome = true) :=
  ⟨(graph_mirror_invariant [GraphOp.addDep "a.py" "b.py"]).1 "a.py" "b.py",
    (graph_mirror_invariant [GraphOp.addDep "a.py" "b.py"]).2 "a.py" "b.py"
      (by decide)⟩

lemma gwalk_append_edge {α : Type} [DecidableEq α] {g : DependencyGraph α}
    {a b c : α} (w : GWalk g a b) (he : hasEdge g b c) : GWalk g a c := by
  induction w with
  | single h => exact GWalk.cons h (GWalk.single he)
  | cons h _ ih => exact GWalk.cons h (ih he)

lemma bfsCheck_sound {α : Type} [DecidableEq α] {g : DependencyGraph α}
    {comp : List α} {start : α} :
    ∀ {fuel : Nat} {queue visited : List α},
      bfsCheck g comp start fuel queue visited = true →
      (∀ q ∈ queue, q ∈ comp ∧ (q = start ∨ GWalk g start q)) →
      ∃ cur, cur ∈ comp ∧ cur ≠ start ∧ GWalk g start cur ∧
        hasEdge g cur start := by
  intro fuel
  induction fuel with
  | zero =>
    intro queue visited h _
    exact absurd h (by simp [bfsCheck])
  | succ n ih =>
    intro queue visited h hinv
    cases queue with
    | nil => exact absurd h (by simp [bfsCheck])
    | cons current rest =>
      rw [bfsCheck] at h
      have hcur := hinv current (List.mem_cons_self current rest)
      by_cases hv : current ∈ visited
      · rw [if_pos hv] at h
        exact ih h fun q hq => hinv q (List.mem_cons_of_mem _ hq)
      · rw [if_neg hv] at h
        simp only [] at h
        split at h
        · exact ih h fun q hq => hinv q (List.mem_cons_of_mem _ hq)
        · rename_i node hg
          by_cases ha : (node.imports.any fun n =>
              decide (n = start) && decide (current ≠ start)) = true
          · obtain ⟨nb, hnb, hcond⟩ := List.any_eq_true.mp ha
            rw [Bool.and_eq_true] at hcond
            have hnbs : nb = start := of_decide_eq_true hcond.1
            have hcs : current ≠ start := of_decide_eq_true hcond.2
            subst hnbs
            have hedge : hasEdge g current nb := by
              show nb ∈ importsOf g current
              unfold importsOf
              rw [hg]
              simpa using hnb
            refine ⟨current, hcur.1, hcs, ?_, hedge⟩
            cases hcur.2 with
            | inl he => exact absurd he hcs
            | inr hw => exact hw
          · rw [if_neg ha] at h
            apply ih h
            intro q hq
            rcases List.mem_append.mp hq with hq | hq
            · exact hinv q (List.mem_cons_of_mem _ hq)
            · obtain ⟨hqi, hcond⟩ := List.mem_filter.mp hq
              rw [Bool.and_eq_true] at hcond
              have hqc : q ∈ comp := of_decide_eq_true hcond.1
              have hedge : hasEdge g current q := by
                show q ∈ importsOf g current
                unfold importsOf
                rw [hg]
                simpa using hqi
              refine ⟨hqc, Or.inr ?_⟩
              cases hcur.2 with
              | inl he => exact GWalk.single (he ▸ hedge)
              | inr hw => exact gwalk_append_edge hw hedge

lemma is_real_cycle_sound {α : Type} [DecidableEq α]
    {g : DependencyGraph α} {c : List α} (h : is_real_cycle g c = true) :
    ∃ x ∈ c, ∃ y ∈ c, x ≠ y ∧ GWalk g x x := by
  obtain ⟨start, hs, hb⟩ := List.any_eq_true.mp h
  obtain ⟨cur, hcin, hcs, hw, he⟩ := bfsCheck_sound hb fun q hq => by
    rw [List.mem_singleton] at hq
    subst hq
    exact ⟨hs, Or.inl rfl⟩
  exact ⟨start, hs, cur, hcin, fun hh => hcs hh.symm, gwalk_append_edge hw he⟩

lemma setLow_cycles {α : Type} [DecidableEq α] (v : α) (x : Nat)
    (st : TState α) : (setLow v x st).cycles = st.cycles := rfl

lemma scFinish_cycles_sound {α : Type} [DecidableEq α]
    {g : DependencyGraph α} {v : α} {st2 : TState α} (c : List α)
    (hc : c ∈ (scFinish g v st2).cycles) :
    c ∈ st2.cycles ∨ (1 < c.length ∧ is_real_cycle g c = true) := by
  unfold scFinish at hc
  by_cases h1 : getLow st2 v = getIdx st2 v
  · rw [if_pos h1] at hc
    simp only [] at hc
    by_cases h2 : (1 < (popComp v st2.stack).1.length &&
        is_real_cycle g (popComp v st2.stack).1) = true
    · rw [if_pos h2] at hc
      rcases List.mem_append.mp hc with h | h
      · exact Or.inl h
      · rw [List.mem_singleton] at h
        subst h
        rw [Bool.and_eq_true] at h2
        exact Or.inr ⟨of_decide_eq_true h2.1, h2.2⟩
    · rw [if_neg h2] at hc
      exact Or.inl hc
  · rw [if_neg h1] at hc
    exact Or.inl hc

lemma foldl_cycles_sound {α β : Type} [DecidableEq α] {P : List α → Prop}
    {step : TState α → β → TState α}
    (hstep : ∀ st w, ∀ c ∈ (step st w).cycles, c ∈ st.cycles ∨ P c) :
    ∀ (l : List β) (st : TState α), ∀ c ∈ (l.foldl step st).cycles,
      c ∈ st.cycles ∨ P c := by
  intro l
  induction l with
  | nil => intro st c hc; exact Or.inl hc
  | cons w ws ih =>
    intro st c hc
    rcases ih (step st w) c hc with h | h
    · exact hstep st w c h
    · exact Or.inr h

lemma strongconnect_cycles_sound {α : Type} [DecidableEq α]
    {g : DependencyGraph α} :
    ∀ (fuel : Nat) (v : α) (st : TState α),
      ∀ c ∈ (strongconnect g fuel v st).cycles,
        c ∈ st.cycles ∨ (1 < c.length ∧ is_real_cycle g c = true) := by
  intro fuel
  induction fuel with
  | zero => intro v st c hc; exact Or.inl hc
  | succ n ih =>
    intro v st c hc
    rw [strongconnect] at hc
    try simp only [] at hc
    rcases scFinish_cycles_sound c hc with h | h
    · cases hg : getNode g v with
      | none =>
        rw [hg] at h
        exact Or.inl h
      | some node =>
        rw [hg] at h
        have hstep : ∀ st' w,
            ∀ c' ∈ (scInner (strongconnect g n) v st' w).cycles,
              c' ∈ st'.cycles ∨ (1 < c'.length ∧ is_real_cycle g c' = true) := by
          intro st' w c' hc'
          unfold scInner at hc'
          by_cases hidx : (lookupN st'.indices w).isNone = true
          · rw [if_pos hidx] at hc'
            simp only [] at hc'
            rw [setLow_cycles] at hc'
            exact ih w st' c' hc'
          · rw [if_neg hidx] at hc'
            by_cases hos : w ∈ st'.onStack
            · rw [if_pos hos] at hc'
              rw [setLow_cycles] at hc'
              exact Or.inl hc'
            · rw [if_neg hos] at hc'
              exact Or.inl hc'
        rcases foldl_cycles_sound hstep node.imports (scPush v st) c h with h' | h'
        · exact Or.inl h'
        · exact Or.inr h'
    · exact Or.inr h

lemma find_cycles_sound {α : Type} [DecidableEq α] {g : DependencyGraph α} :
    ∀ c ∈ find_cycles g, 1 < c.length ∧ is_real_cycle g c = true := by
  intro c hc
  unfold find_cycles at hc
  have hstep : ∀ (st : TState α) (e : α × GNode α),
      ∀ c' ∈ ((fun st (e : α × GNode α) =>
        if (lookupN st.indices e.1).isNone then
          strongconnect g (scFuel g) e.1 st
        else st) st e).cycles,
        c' ∈ st.cycles ∨ (1 < c'.length ∧ is_real_cycle g c' = true) := by
    intro st e c' hc'
    simp only [] at hc'
    by_cases hidx : (lookupN st.indices e.1).isNone = true
    · rw [if_pos hidx] at hc'
      exact strongconnect_cycles_sound (scFuel g) e.1 st c' hc'
    · rw [if_neg hidx] at hc'
      exact Or.inl hc'
  rcases foldl_cycles_sound hstep g.nodes ⟨0, [], [], [], [], []⟩ c hc with h | h
  · exact absurd h (List.not_mem_nil c)
  · exact h

/-- Claim C1: for every graph whose internal `imports` edge set is
acyclic — no node lies on a nonempty directed walk back to itself —
`find_cycles` returns the empty list, whatever the nodes, edges and
external references of the graph are. -/
theorem find_cycles_empty_of_acyclic {α : Type} [DecidableEq α]
    (g : DependencyGraph α) (h : Acyclic g) : find_cycles g = [] := by
  rw [List.eq_nil_iff_forall_not_mem]
  intro c hc
  obtain ⟨_, hirc⟩ := find_cycles_sound c hc
  obtain ⟨x, _, y, _, _, hw⟩ := is_real_cycle_sound hirc
  exact h x hw

theorem find_cycles_empty_of_acyclic_witness :
    find_cycles (add_dependency (emptyDepGraph (α := String))
      "a.py" "b.py") = [] := by
  apply find_cycles_empty_of_acyclic
  have hedge : ∀ x y : String,
      hasEdge (add_dependency (emptyDepGraph (α := String)) "a.py" "b.py")
        x y → x = "a.py" ∧ y = "b.py" := by
    intro x y h
    have hx : y ∈ importsOf (add_dependency (emptyDepGraph (α := String))
        "a.py" "b.py") x := h
    rw [importsOf_add_dependency] at hx
    by_cases h1 : x = "a.py"
    · subst h1
      rw [if_pos rfl, mem_insertL] at hx
      rcases hx with rfl | hx
      · exact ⟨rfl, rfl⟩
      · simp [importsOf, getNode, emptyDepGraph] at hx
    · rw [if_neg h1] at hx
      simp [importsOf, getNode, emptyDepGraph] at hx
  intro x w
  cases w with
  | single h =>
    obtain ⟨h1, h2⟩ := hedge _ _ h
    subst h1
    exact absurd h2 (by decide)
  | cons h w' =>
    obtain ⟨h1, h2⟩ := hedge _ _ h
    subst h2
    cases w' with
    | single h3 => exact absurd (hedge _ _ h3).1 (by decide)
    | cons h3 _ => exact absurd (hedge _ _ h3).1 (by decide)

/-- Claim C2: `add_dependency a a` stores the self-loop edge in `a`'s
`imports` set, and no cycle `find_cycles` returns consists of, or is
produced solely by, a self-loop: every returned cycle contains at least
two distinct members. -/
theorem selfloop_stored_never_reported {α : Type} [DecidableEq α] :
    (∀ (g : DependencyGraph α) (a : α),
      a ∈ importsOf (add_dependency g a a) a) ∧
    (∀ (g : DependencyGraph α) (c : List α), c ∈ find_cycles g →
      ∃ x ∈ c, ∃ y ∈ c, x ≠ y) := by
  constructor
  · intro g a
    rw [importsOf_add_dependency, if_pos rfl, mem_insertL]
    exact Or.inl rfl
  · intro g c hc
    obtain ⟨_, hirc⟩ := find_cycles_sound c hc
    obtain ⟨x, hx, y, hy, hxy, _⟩ := is_real_cycle_sound hirc
    exact ⟨x, hx, y, hy, hxy⟩

theorem selfloop_stored_never_reported_witness :
    "a.py" ∈ importsOf (add_dependency (emptyDepGraph (α := String))
      "a.py" "a.py") "a.py" ∧
    (∃ x ∈ ["b.py", "a.py"], ∃ y ∈ ["b.py", "a.py"], x ≠ y) :=
  ⟨(selfloop_stored_never_reported (α := String)).1 emptyDepGraph "a.py",
    (selfloop_stored_never_reported (α := String)).2
      (add_dependency (add_dependency (emptyDepGraph (α := String))
        "a.py" "b.py") "b.py" "a.py")
      ["b.py", "a.py"] (by decide)⟩

lemma extractFromNodes_ok {t : List AstNode} (h : wfAst t) :
    ∃ l, extractFromNodes t = Except.ok l := by
  induction t with
  | nil => exact ⟨[], rfl⟩
  | cons n rest ih =>
    have hrest : wfAst rest := fun m hm => h m (List.mem_cons_of_mem _ hm)
    obtain ⟨l, hl⟩ := ih hrest
    cases n with
    | imp names line =>
      refine ⟨(names.map fun nm => ⟨some nm, [], 0, line, false⟩) ++ l, ?_⟩
      rw [extractFromNodes, hl]
    | impFrom mod names level line =>
      have hne : names ≠ [] :=
        h _ (List.mem_cons_self _ _) mod names level line rfl
      cases names with
      | nil => exact absurd rfl hne
      | cons a as =>
        refine ⟨(⟨some (mod.getD ""), if a = "*" then ["*"] else a :: as,
          level.getD 0, line, true⟩ : ImportRec) :: l, ?_⟩
        rw [extractFromNodes]
        simp only [List.head?_cons]
        rw [hl]
    | other =>
      refine ⟨l, ?_⟩
      rw [extractFromNodes]
      exact hl

lemma extract_imports_ok_of_only_syntax_errors (env : PyEnv)
    (hparse : ∀ s t, env.parse s = Except.ok t → wfAst t)
    (hsyn : ∀ s, env.parse s ≠ Except.error ParseErr.otherError) :
    ∃ l, extract_imports env = Except.ok l := by
  unfold extract_imports
  by_cases he : env.fileExists = true
  · rw [if_neg (by simp [he])]
    split
    · rename_i tree hp
      exact extractFromNodes_ok (hparse _ _ hp)
    · split
      · rename_i tree hp
        exact extractFromNodes_ok (hparse _ _ hp)
      · exact ⟨[], rfl⟩
      · rename_i hp
        exact absurd hp (hsyn _)
    · rename_i hp
      exact absurd hp (hsyn _)
  · rw [if_pos (by simp [Bool.not_eq_true] at he ⊢; exact he)]
    exact ⟨[], rfl⟩

/-- Claim C9 (code bug): the claim — restating the spec's contract that
the extractor "must never raise for unreadable or malformed input —
degrade to empty" — is broken by the source, whose two
`except SyntaxError` handlers catch only `SyntaxError`.  Evaluated here on
the model of a UTF-16-encoded `.py` file, one of the claim's own
"undecodable" inputs: the file exists, its bytes (UTF-16-LE BOM `FF FE`
followed by the code points of `im` with interleaved `00` bytes) fail
UTF-8 decoding, the latin-1 fallback keeps the null bytes in the decoded
source, and `ast.parse` on that source raises `ValueError` on Python
3.8-3.10 — a non-`SyntaxError` failure that `extract_imports` propagates
to its caller instead of degrading to an empty record list
(`extract_imports_ok_of_only_syntax_errors` shows the complementary fact
that `SyntaxError`-only failures are all absorbed). -/
theorem extract_imports_raises_on_nonsyntax_parse_error :
    extract_imports
      ⟨true,
        fun _ => some [255, 254, 105, 0, 109, 0],
        fun _ => none,
        fun _ => "ÿþi\x00m\x00",
        fun _ => Except.error ParseErr.otherError⟩ =
      Except.error PyExc.nonSyntaxParseError := rfl
